import Mathlib

/-!
Verification development for the desktop AI chat client in `src/AIChat.py`:
the streaming-response coordinator, the incremental content segmenter and
fence-repair policy, the inline-formatting pipeline, and the history
persistence path, shallowly embedded over `List Char` and explicit state
records. Python strings are modelled as `List Char`; Python's `str.strip`
is modelled over the ASCII whitespace set; the regex fallback segmenter
`MarkdownParser._split_by_regex` (pattern three-backticks, language line,
lazy body, three-backticks) is modelled by `findMatch`/`segmentsOf` below.
-/

namespace AIChat

/-- Python strings as lists of characters. -/
abbrev Chars := List Char

/-- The backtick character, written by code point. -/
def bt : Char := '\u0060'

/-- A fence marker: three consecutive backticks. -/
def fence : Chars := [bt, bt, bt]

/-- ASCII whitespace, the characters Python's `str.strip()` removes for
ASCII input. -/
def isWs (c : Char) : Bool :=
  c == ' ' || c == '\t' || c == '\n' || c == '\r' || c == '\x0b' || c == '\x0c'

/-- Python's `str.strip()`: drop leading and trailing whitespace. -/
def pyStrip (cs : Chars) : Chars :=
  ((cs.dropWhile isWs).reverse.dropWhile isWs).reverse

/-- Whether a character occurs in a string. -/
def hasChar (c : Char) : Chars → Bool
  | [] => false
  | x :: xs => x == c || hasChar c xs

/-- Test `leadsWith p cs`: `cs` starts with the character sequence `p`. -/
def leadsWith : Chars → Chars → Bool
  | [], _ => true
  | _ :: _, [] => false
  | p :: ps, c :: cs => p == c && leadsWith ps cs

/-- Python's `str.replace(c, rep)` for a single-character pattern. -/
def replaceChar (c : Char) (rep : Chars) : Chars → Chars
  | [] => []
  | x :: xs => if x == c then rep ++ replaceChar c rep xs else x :: replaceChar c rep xs

/-- State machine for Python's `str.count('<three backticks>')`:
`pending` counts the backticks of a partial marker already seen; a
completed marker resets `pending` (occurrences are non-overlapping and
counted left to right, as `str.count` does). -/
def countFenceAux : Nat → Chars → Nat
  | _, [] => 0
  | pending, c :: cs =>
    if c == bt then
      if pending == 2 then countFenceAux 0 cs + 1 else countFenceAux (pending + 1) cs
    else countFenceAux 0 cs

/-- Model of `content.count` on the fence marker, from
`MessageWidget._has_unclosed_code_block` (src/AIChat.py:933-938). -/
def pyCount3 (cs : Chars) : Nat := countFenceAux 0 cs

/-- The fence repair of `MessageWidget.finalize_content`
(src/AIChat.py:940-957): when the fence-marker count is odd, append a
newline and one synthetic closing marker. -/
def repairContent (cs : Chars) : Chars :=
  if pyCount3 cs % 2 = 1 then cs ++ '\n' :: fence else cs

/-- A segment produced by `MarkdownParser.split_content`: plain text, or a
code block with a language tag. -/
inductive Segment where
  | text (content : Chars)
  | code (language : Chars) (content : Chars)
deriving DecidableEq, Repr

/-- Split at the first fence marker: `some (before, after)` when a marker
occurs, with the marker's three characters consumed.  This is the lazy
`[\s\S]*?` group of the pattern in `MarkdownParser._split_by_regex`
(src/AIChat.py:289-327) followed by the literal closing marker: the body
extends to the first marker occurrence. -/
def splitAtFence : Chars → Option (Chars × Chars)
  | [] => none
  | c :: cs =>
    if leadsWith fence (c :: cs) then some ([], cs.drop 2)
    else
      match splitAtFence cs with
      | some (a, b) => some (c :: a, b)
      | none => none

/-- One attempt of the regex at the head of `cs`: an opening fence marker,
then the greedy language line `[^\n]*` (which must be followed by a
newline), then the lazy body up to the next fence marker.  `none` when the
attempt fails (no newline after the language characters, or no closing
marker), in which case the scan advances one position, as `re.finditer`
does. -/
def tryMatchAt (cs : Chars) : Option (Chars × Chars × Chars) :=
  if leadsWith fence cs then
    match (cs.drop 3).dropWhile (fun x => x != '\n') with
    | _ :: afterNl =>
      match splitAtFence afterNl with
      | some (body, after) => some ((cs.drop 3).takeWhile (fun x => x != '\n'), body, after)
      | none => none
    | [] => none
  else none

/-- The leftmost match of the code-block pattern, as `re.finditer` finds
it: try every start position left to right.  `some (pre, lang, body, rest)`
decomposes the input as `pre ++ fence ++ lang ++ '\n' :: body ++ fence ++ rest`. -/
def findMatch : Chars → Option (Chars × Chars × Chars × Chars)
  | [] => none
  | c :: cs =>
    match tryMatchAt (c :: cs) with
    | some (lang, body, rest) => some ([], lang, body, rest)
    | none =>
      match findMatch cs with
      | some (pre, lang, body, rest) => some (c :: pre, lang, body, rest)
      | none => none

/-- The default language name used when the stripped tag is empty
(`match.group(1).strip() or 'code'`, src/AIChat.py:307). -/
def codeWord : Chars := ['c', 'o', 'd', 'e']

/-- Language tag handling `match.group(1).strip() or 'code'`. -/
def langOrDefault (lang : Chars) : Chars :=
  if pyStrip lang = [] then codeWord else pyStrip lang

/-- The text segment emitted for the stretch before a match (or the
trailing stretch): stripped, and dropped when blank (src/AIChat.py:298-304,
318-325). -/
def textSegOf (pre : Chars) : List Segment :=
  if pyStrip pre = [] then [] else [Segment.text (pyStrip pre)]

/-- The code segment emitted for a match: raw body, dropped when the body
is blank (src/AIChat.py:306-314). -/
def codeSegOf (lang body : Chars) : List Segment :=
  if pyStrip body = [] then [] else [Segment.code (langOrDefault lang) body]

/-- The `re.finditer` loop of `_split_by_regex`, fuelled for structural
recursion: each found match consumes at least seven characters, so
`length + 1` fuel always suffices. -/
def segmentsFromFuel : Nat → Chars → List Segment
  | 0, _ => []
  | fuel + 1, cs =>
    match findMatch cs with
    | none => textSegOf cs
    | some (pre, lang, body, rest) =>
      textSegOf pre ++ codeSegOf lang body ++ segmentsFromFuel fuel rest

/-- The segments `_split_by_regex` accumulates before its final fallback. -/
def segmentsOf (cs : Chars) : List Segment :=
  segmentsFromFuel (cs.length + 1) cs

/-- Model of `MarkdownParser._split_by_regex` (src/AIChat.py:289-327): the match
loop plus the fallback `[{'type': 'text', 'content': text}]` when no
segment was produced. -/
def splitByRegex (cs : Chars) : List Segment :=
  if segmentsOf cs = [] then [Segment.text cs] else segmentsOf cs

/-- Final-mode segmentation as `MessageWidget.finalize_content` performs
it on a non-empty content: repair an odd fence count, then split
(src/AIChat.py:940-957 with the regex fallback of split_content). -/
def finalizeSegments (cs : Chars) : List Segment :=
  splitByRegex (repairContent cs)

/-- Whether a fence marker occurs at position `p`. -/
def fenceAt (cs : Chars) (p : Nat) : Bool := leadsWith fence (cs.drop p)

/-- Whether a newline occurs at position `m`. -/
def nlAt (cs : Chars) (m : Nat) : Bool := leadsWith ['\n'] (cs.drop m)

/-- All fence markers of the input lie on one line: no newline strictly
between the start positions of two markers. -/
def markersOneLine (cs : Chars) : Bool :=
  (List.range cs.length).all fun p =>
    (List.range cs.length).all fun m =>
      (List.range cs.length).all fun q =>
        !(fenceAt cs p && nlAt cs m && fenceAt cs q && decide (p < m) && decide (m < q))

/-- The raw form of a segment, re-wrapping a code segment in fence markers
with its language tag (the re-wrapping the round-trip property of the spec
describes). -/
def rewrapSegment : Segment → Chars
  | Segment.text t => t
  | Segment.code lang body => fence ++ lang ++ '\n' :: body ++ fence

/-- Concatenation of the segments' raw forms in order. -/
def rewrap (segs : List Segment) : Chars := (segs.map rewrapSegment).flatten

/-- The input with every whitespace character removed: two strings with
equal projections differ only in whitespace. -/
def filterNonWs (cs : Chars) : Chars := cs.filter (fun c => !isWs c)

/-- Inputs alternating plain text runs and well-formed fenced blocks, the
shape over which the amended round-trip property is proved. -/
inductive FencedDoc where
  | done (trailing : Chars)
  | block (pre lang body : Chars) (rest : FencedDoc)

/-- The flat text of a `FencedDoc`. -/
def FencedDoc.render : FencedDoc → Chars
  | done t => t
  | block pre lang body rest => pre ++ fence ++ lang ++ '\n' :: body ++ fence ++ rest.render

/-- Well-formedness for the amended round-trip: text runs and bodies are
backtick-free, language tags are backtick- and newline-free, non-empty and
already stripped, bodies are non-blank. -/
def FencedDoc.wf : FencedDoc → Bool
  | done t => !hasChar bt t
  | block pre lang body rest =>
    !hasChar bt pre && !hasChar bt lang && !hasChar '\n' lang &&
    (pyStrip lang == lang) && !lang.isEmpty &&
    !hasChar bt body && !(pyStrip body).isEmpty && rest.wf

/-! ## The inline-formatting pipeline of `MessageWidget.process_inline_code`
(src/AIChat.py:1110-1127): escape the markup-significant characters, then
style fence markers, inline code, bold, italic, line breaks, and wrap in a
colored div. -/

/-- Replacement for an ampersand. -/
def entAmp : Chars := ['&', 'a', 'm', 'p', ';']

/-- Replacement for a less-than sign. -/
def entLt : Chars := ['&', 'l', 't', ';']

/-- Replacement for a greater-than sign. -/
def entGt : Chars := ['&', 'g', 't', ';']

/-- The first statement of `process_inline_code`:
`text.replace('&', '&amp;').replace('<', '&lt;').replace('>', '&gt;')`. -/
def escapeHtml (cs : Chars) : Chars :=
  replaceChar '>' entGt (replaceChar '<' entLt (replaceChar '&' entAmp cs))

/-- Python's `str.replace` for the three-backtick pattern (non-overlapping,
left to right, the replacement is not rescanned); `skip` counts remaining
characters of an already-replaced marker still to drop. -/
def replaceTripleAux (rep : Chars) : Nat → Chars → Chars
  | _, [] => []
  | skip + 1, _ :: cs => replaceTripleAux rep skip cs
  | 0, c :: cs =>
    if leadsWith fence (c :: cs) then rep ++ replaceTripleAux rep 2 cs
    else c :: replaceTripleAux rep 0 cs

/-- Replace every fence marker with `rep` (src/AIChat.py:1117). -/
def replaceTriple (rep : Chars) (cs : Chars) : Chars := replaceTripleAux rep 0 cs

/-- The styled span a fence marker is replaced with during inline
formatting (src/AIChat.py:1117). -/
def fenceSpan : Chars :=
  "<span style=\"background:#f1f5f9; color:#718096; padding:2px 6px; border-radius:4px; font-family:monospace; font-size:0.85em;\">```</span>".toList

/-- Opening of the span wrapped around inline code (src/AIChat.py:1120). -/
def icOpen : Chars :=
  "<span style=\"background:#f1f5f9; color:#e53e3e; padding:2px 8px; border-radius:12px; font-family:monospace; font-size:0.9em;\">".toList

/-- Closing span tag. -/
def icClose : Chars := "</span>".toList

/-- Whether the head character is a backtick (the regex lookarounds of the
inline-code pattern; an empty remainder satisfies a negative lookahead). -/
def headIsBt : Chars → Bool
  | x :: _ => x == bt
  | [] => false

/-- Whether the head character is an asterisk. -/
def headIsStar : Chars → Bool
  | x :: _ => x == '*'
  | [] => false

/-- One pass of `re.sub` for the inline-code pattern (a backtick with no
backtick adjacent, one or more non-backticks, a closing backtick not
followed by a backtick), scanning left to right, non-overlapping; `prev`
is the character before the scan position (for the lookbehind), `none` at
the start.  Fuelled: each step consumes at least one character. -/
def subICFuel : Nat → Option Char → Chars → Chars
  | 0, _, cs => cs
  | _ + 1, _, [] => []
  | f + 1, prev, c :: cs =>
    if c == bt && !(prev == some bt) && !headIsBt cs then
      match cs.dropWhile (fun x => x != bt) with
      | _ :: rest2 =>
        if !(cs.takeWhile (fun x => x != bt)).isEmpty && !headIsBt rest2 then
          icOpen ++ cs.takeWhile (fun x => x != bt) ++ icClose ++ subICFuel f (some bt) rest2
        else c :: subICFuel f (some c) cs
      | [] => c :: subICFuel f (some c) cs
    else c :: subICFuel f (some c) cs

/-- The inline-code substitution of src/AIChat.py:1120. -/
def subInlineCode (cs : Chars) : Chars := subICFuel (cs.length + 1) none cs

/-- Opening and closing tags of the bold substitution. -/
def bOpen : Chars := "<b>".toList

/-- Closing bold tag. -/
def bClose : Chars := "</b>".toList

/-- Opening italic tag. -/
def iOpen : Chars := "<i>".toList

/-- Closing italic tag. -/
def iClose : Chars := "</i>".toList

/-- One pass of `re.sub` for the bold pattern (two asterisks, one or more
non-asterisks, two asterisks), scanning left to right; on a failed attempt
the scan advances one position. -/
def subBoldFuel : Nat → Chars → Chars
  | 0, cs => cs
  | _ + 1, [] => []
  | f + 1, c :: cs =>
    if c == '*' && headIsStar cs then
      match (cs.drop 1).dropWhile (fun x => x != '*') with
      | _ :: rest2 =>
        if !((cs.drop 1).takeWhile (fun x => x != '*')).isEmpty && headIsStar rest2 then
          bOpen ++ (cs.drop 1).takeWhile (fun x => x != '*') ++ bClose ++
            subBoldFuel f (rest2.drop 1)
        else c :: subBoldFuel f cs
      | [] => c :: subBoldFuel f cs
    else c :: subBoldFuel f cs

/-- The bold substitution of src/AIChat.py:1123. -/
def subBold (cs : Chars) : Chars := subBoldFuel (cs.length + 1) cs

/-- One pass of `re.sub` for the italic pattern (an asterisk, one or more
non-asterisks, an asterisk). -/
def subItalFuel : Nat → Chars → Chars
  | 0, cs => cs
  | _ + 1, [] => []
  | f + 1, c :: cs =>
    if c == '*' then
      match cs.dropWhile (fun x => x != '*') with
      | _ :: rest2 =>
        if !(cs.takeWhile (fun x => x != '*')).isEmpty then
          iOpen ++ cs.takeWhile (fun x => x != '*') ++ iClose ++ subItalFuel f rest2
        else c :: subItalFuel f cs
      | [] => c :: subItalFuel f cs
    else c :: subItalFuel f cs

/-- The italic substitution of src/AIChat.py:1124. -/
def subItal (cs : Chars) : Chars := subItalFuel (cs.length + 1) cs

/-- The line-break tag. -/
def brTag : Chars := "<br>".toList

/-- The wrapping div opening, colored by message role
(src/AIChat.py:1126-1127). -/
def divOpen (user : Bool) : Chars :=
  if user then "<div style=\"line-height: 1.7; color: #1e40af;\">".toList
  else "<div style=\"line-height: 1.7; color: #1a202c;\">".toList

/-- The closing div tag. -/
def divClose : Chars := "</div>".toList

/-- The formatting substitutions of `process_inline_code` after the escape
step: fence-marker styling, inline code, bold, italic, line breaks, div
wrapping, in source order. -/
def inlineFormatting (user : Bool) (t : Chars) : Chars :=
  divOpen user ++
    replaceChar '\n' brTag (subItal (subBold (subInlineCode (replaceTriple fenceSpan t)))) ++
    divClose

/-- Model of `MessageWidget.process_inline_code` (src/AIChat.py:1110-1127):
escape the markup-significant characters first, then apply the formatting
substitutions. -/
def processInlineCode (user : Bool) (text : Chars) : Chars :=
  inlineFormatting user (escapeHtml text)

/-- Whether a suffix begins with one of the three entity tails the escape
step produces. -/
def entityTail (cs : Chars) : Bool :=
  leadsWith ['a', 'm', 'p', ';'] cs || leadsWith ['l', 't', ';'] cs ||
    leadsWith ['g', 't', ';'] cs

/-- Every ampersand of the string starts one of the escape entities. -/
def ampOk : Chars → Bool
  | [] => true
  | c :: cs => (if c == '&' then entityTail cs else true) && ampOk cs

/-! ## Rendered widgets: what `parse_content` and `_update_text_only`
put into the message layout. -/

/-- A rendered element: a text browser holding generated markup, or a code
block widget. -/
inductive RenderItem where
  | html (content : Chars)
  | codeBlock (language : Chars) (code : Chars)
deriving DecidableEq, Repr

/-- Model of `MessageWidget.parse_content` (src/AIChat.py:1033-1060): a
code-block widget per non-blank code segment, a text browser with the
inline-formatted markup per non-blank text segment. -/
def renderSegments (user : Bool) : List Segment → List RenderItem
  | [] => []
  | Segment.code lang c :: rest =>
    if pyStrip c = [] then renderSegments user rest
    else RenderItem.codeBlock lang c :: renderSegments user rest
  | Segment.text t :: rest =>
    if pyStrip t = [] then renderSegments user rest
    else RenderItem.html (processInlineCode user t) :: renderSegments user rest

/-- Live-mode rendering, `MessageWidget.update_content` via
`_update_text_only` (src/AIChat.py:882-931): one text browser holding the
stripped accumulated text inline-formatted, nothing else. -/
def liveRender (cs : Chars) : List RenderItem :=
  [RenderItem.html (processInlineCode false (pyStrip cs))]

/-- Final rendering after stream completion, `finalize_content`: repair,
split, render. -/
def finalRender (cs : Chars) : List RenderItem :=
  renderSegments false (finalizeSegments cs)

/-- Whether a rendered list contains a code-block widget. -/
def hasCodeItem : List RenderItem → Bool
  | [] => false
  | RenderItem.codeBlock _ _ :: _ => true
  | _ :: rest => hasCodeItem rest

/-! ## The streaming coordinator: `ChatWindow`'s state and the handlers
`send_message`, `on_stream_chunk`, `on_stream_finished`, `on_api_error`,
`_cancel_current_request` and `on_conversation_changed`
(src/AIChat.py:1131-1990).  Scope of the model: the text-only send path
with valid settings (the image branch, the settings dialogs and the title
update change nothing the claims depend on), Qt widgets as entries of a
`view` list with allocated ids, QThread workers as ids with a running flag
(`_is_running`, cleared by `stop()`) and a connected flag (signal
connections to the window's slots), and the persistence calls left to the
separate file-system model below. -/

/-- A stored message: `{"role": ..., "content": ...}` with string content. -/
structure MsgEntry where
  role : String
  content : Chars
deriving DecidableEq, Repr

/-- A message widget in the transcript view. -/
structure WidgetEntry where
  wid : Nat
  role : String
  content : Chars
deriving DecidableEq, Repr

/-- The coordinator state of `ChatWindow`. -/
structure AppState where
  /-- `self.conversations`: conversation id to message list. -/
  conversations : Nat → List MsgEntry
  /-- `self.current_conversation_id`. -/
  currentConv : Nat
  /-- `self._request_conversation_id`. -/
  requestConv : Option Nat
  /-- `self.current_ai_content`. -/
  aiContent : Chars
  /-- `self.current_ai_widget` as a widget id. -/
  aiWidget : Option Nat
  /-- The transcript view's message widgets, in layout order. -/
  view : List WidgetEntry
  /-- `self.api_worker` as a worker id. -/
  apiWorker : Option Nat
  /-- Each worker's `_is_running` flag. -/
  workerRunning : Nat → Bool
  /-- Whether each worker's signals are connected to the window's slots. -/
  workerConnected : Nat → Bool
  /-- Allocator for fresh worker ids. -/
  nextWorker : Nat
  /-- Allocator for fresh widget ids. -/
  nextWidget : Nat
  /-- The send button's enabled state. -/
  sendEnabled : Bool

/-- The role string of a user message. -/
def userRoleS : String := "user"

/-- The role string of an assistant message. -/
def assistantRoleS : String := "assistant"

/-- Model of `ChatWindow._cancel_current_request` (src/AIChat.py:1668-1693):
if a worker is set and running, signal it to stop, disconnect its signals
and drop the reference; always clear the transient AI state and re-enable
sending. -/
def cancelCurrentRequest (s : AppState) : AppState :=
  let s1 : AppState :=
    match s.apiWorker with
    | some w =>
      if s.workerRunning w then
        { s with
          workerRunning := fun x => if x = w then false else s.workerRunning x,
          workerConnected := fun x => if x = w then false else s.workerConnected x,
          apiWorker := none }
      else s
    | none => s
  { s1 with aiContent := [], aiWidget := none, requestConv := none, sendEnabled := true }

/-- Widgets rebuilt for a conversation's stored messages, with fresh ids. -/
def buildView (start : Nat) : List MsgEntry → List WidgetEntry
  | [] => []
  | m :: ms => ⟨start, m.role, m.content⟩ :: buildView (start + 1) ms

/-- Model of `ChatWindow.on_conversation_changed` (src/AIChat.py:1715-1723)
with a selected item: cancel the current request first, then switch the
active conversation id and rebuild the transcript view from the store. -/
def onConversationChanged (newConv : Nat) (s : AppState) : AppState :=
  let s1 := cancelCurrentRequest s
  { s1 with
    currentConv := newConv,
    view := buildView s1.nextWidget (s1.conversations newConv),
    nextWidget := s1.nextWidget + (s1.conversations newConv).length }

/-- Model of `ChatWindow.send_message` (src/AIChat.py:1790-1914), text-only
path with valid settings: append the user message to the store and the
view, add the empty assistant placeholder widget, record the request's
conversation id, create a fresh worker, connect its signals and start it.
The previous worker, if any, is neither stopped nor disconnected: only the
`api_worker` reference is overwritten. -/
def sendMessage (txt : Chars) (s : AppState) : AppState :=
  if txt = [] then s
  else
    { s with
      conversations := fun c =>
        if c = s.currentConv then s.conversations s.currentConv ++ [⟨userRoleS, txt⟩]
        else s.conversations c,
      view := s.view ++ [⟨s.nextWidget, userRoleS, txt⟩, ⟨s.nextWidget + 1, assistantRoleS, []⟩],
      nextWidget := s.nextWidget + 2,
      sendEnabled := false,
      aiContent := [],
      aiWidget := some (s.nextWidget + 1),
      requestConv := some s.currentConv,
      apiWorker := some s.nextWorker,
      workerRunning := fun x => if x = s.nextWorker then true else s.workerRunning x,
      workerConnected := fun x => if x = s.nextWorker then true else s.workerConnected x,
      nextWorker := s.nextWorker + 1 }

/-- Model of `ChatWindow.on_stream_chunk` (src/AIChat.py:1916-1933): ignore
the chunk when the request's conversation is no longer the active one;
otherwise extend the accumulated text and update (or create) the assistant
widget.  The conversation store is never touched. -/
def onStreamChunk (delta : Chars) (s : AppState) : AppState :=
  if s.requestConv = some s.currentConv then
    match s.aiWidget with
    | some wid =>
      { s with
        aiContent := s.aiContent ++ delta,
        view := s.view.map fun w =>
          if w.wid = wid then { w with content := s.aiContent ++ delta } else w }
    | none =>
      { s with
        aiContent := s.aiContent ++ delta,
        view := s.view ++ [⟨s.nextWidget, assistantRoleS, s.aiContent ++ delta⟩],
        aiWidget := some s.nextWidget,
        nextWidget := s.nextWidget + 1 }
  else s

/-- Model of `ChatWindow.on_stream_finished` (src/AIChat.py:1935-1962): on
a conversation mismatch only clear the request id; otherwise, when text
accumulated, append the assistant message with the raw accumulated text to
the store and finalize the widget (whose own content, when non-empty, is
replaced by the fence-repaired text); then clear the transient state. -/
def onStreamFinished (s : AppState) : AppState :=
  if s.requestConv = some s.currentConv then
    let s1 : AppState :=
      if s.aiContent = [] then s
      else
        let s2 : AppState := { s with
          conversations := fun c =>
            if c = s.currentConv then
              s.conversations s.currentConv ++ [⟨assistantRoleS, s.aiContent⟩]
            else s.conversations c }
        match s2.aiWidget with
        | some wid =>
          { s2 with
            view := s2.view.map fun w =>
              if w.wid = wid then
                { w with content := if w.content = [] then w.content else repairContent w.content }
              else w }
        | none => s2
    { s1 with aiContent := [], aiWidget := none, requestConv := none, sendEnabled := true }
  else
    { s with requestConv := none }

/-- Model of `ChatWindow.on_api_error` (src/AIChat.py:1964-1990): on a
conversation mismatch only clear the request id; otherwise re-enable
sending, remove the assistant placeholder widget when no text accumulated,
and clear the transient state.  The conversation store is never touched. -/
def onApiError (s : AppState) : AppState :=
  if s.requestConv = some s.currentConv then
    let s1 : AppState := { s with sendEnabled := true }
    let s2 : AppState :=
      match s1.aiWidget with
      | some wid =>
        if s1.aiContent = [] then { s1 with view := s1.view.filter fun w => w.wid != wid }
        else s1
      | none => s1
    { s2 with aiContent := [], aiWidget := none, requestConv := none }
  else
    { s with requestConv := none }

/-- Delivery of a chunk emitted by worker `w`: the slot runs only while the
worker's signals are connected. -/
def deliverChunk (w : Nat) (delta : Chars) (s : AppState) : AppState :=
  if s.workerConnected w then onStreamChunk delta s else s

/-- Delivery of the completion signal of worker `w`. -/
def deliverFinished (w : Nat) (s : AppState) : AppState :=
  if s.workerConnected w then onStreamFinished s else s

/-- Delivery of the failure signal of worker `w`. -/
def deliverError (w : Nat) (s : AppState) : AppState :=
  if s.workerConnected w then onApiError s else s

/-- A concrete armed state: one conversation (id 0), a user widget and an
empty assistant placeholder, worker 0 running and connected. -/
def demoState : AppState where
  conversations := fun _ => []
  currentConv := 0
  requestConv := some 0
  aiContent := []
  aiWidget := some 1
  view := [⟨0, userRoleS, ['h', 'i']⟩, ⟨1, assistantRoleS, []⟩]
  apiWorker := some 0
  workerRunning := fun w => w == 0
  workerConnected := fun w => w == 0
  nextWorker := 1
  nextWidget := 2
  sendEnabled := false

/-- A concrete armed state mid-stream: the accumulated text is an
unterminated code block (odd fence count). -/
def demoStreaming : AppState where
  conversations := fun c => if c = 0 then [⟨userRoleS, ['h', 'i']⟩] else []
  currentConv := 0
  requestConv := some 0
  aiContent := "```py\nprint(1)".toList
  aiWidget := some 1
  view := [⟨0, userRoleS, ['h', 'i']⟩, ⟨1, assistantRoleS, "```py\nprint(1)".toList⟩]
  apiWorker := some 0
  workerRunning := fun w => w == 0
  workerConnected := fun w => w == 0
  nextWorker := 1
  nextWidget := 2
  sendEnabled := false

/-! ## Persistence: `ChatWindow.save_conversations` (src/AIChat.py:2022-2049),
the non-debounced write path.  It writes the serialized document to
`HISTORY_FILE + ".tmp"`, removes the existing `HISTORY_FILE` if present,
and renames the temporary file over the destination.  A crash between two
steps leaves the file system as the completed steps left it. -/

/-- The two paths the save touches: the history file and its temporary. -/
structure FileSystem where
  history : Option Chars
  temp : Option Chars
deriving DecidableEq, Repr

/-- The file-system-visible steps of the save path, in source order. -/
inductive SaveStep where
  | writeTmp
  | removeOld
  | renameTmp
deriving DecidableEq, Repr

/-- Effect of one save step on the file system when saving `doc`. -/
def applyStep (doc : Chars) (fs : FileSystem) : SaveStep → FileSystem
  | SaveStep.writeTmp => { fs with temp := some doc }
  | SaveStep.removeOld => if fs.history.isSome then { fs with history := none } else fs
  | SaveStep.renameTmp => { history := fs.temp, temp := none }

/-- The save path's steps: write the temporary, remove the destination if
it exists, rename the temporary over the destination
(src/AIChat.py:2040-2046). -/
def saveSteps : List SaveStep := [SaveStep.writeTmp, SaveStep.removeOld, SaveStep.renameTmp]

/-- The file system after a crash that interrupts the save once `k` steps
completed (`k ≥ 3` is the completed save). -/
def crashAfter (doc : Chars) (fs : FileSystem) (k : Nat) : FileSystem :=
  (saveSteps.take k).foldl (applyStep doc) fs

/-- A well-formed concrete document: text, one fenced `py` block, text. -/
def demoDoc : FencedDoc :=
  FencedDoc.block "before\n".toList "py".toList "print(1)\n".toList
    (FencedDoc.done "\nafter".toList)

/-!
# Theorems

Helper lemmas first, then one theorem per claim (with its witness or
counterexample where the claim's status needs one).
-/

theorem backtick_beq_self : (bt == bt) = true := by decide

theorem nl_beq_bt : ('\n' == bt) = false := by decide

/-- Appending the repair suffix adds exactly one fence-marker occurrence,
from any scanner state: the leading newline of the suffix resets a partial
marker. -/
theorem countFenceAux_append_repair (cs : Chars) :
    ∀ p, countFenceAux p (cs ++ '\n' :: fence) = countFenceAux p cs + 1 := by
  induction cs with
  | nil =>
    intro p
    show countFenceAux p ('\n' :: fence) = countFenceAux p [] + 1
    simp [countFenceAux, fence, nl_beq_bt, backtick_beq_self]
  | cons c cs ih =>
    intro p
    by_cases hc : (c == bt) = true
    · by_cases hp : (p == 2) = true
      · simp [countFenceAux, hc, hp, ih]
      · simp [countFenceAux, hc, hp, ih]
    · simp [countFenceAux, hc, ih]

theorem leadsWith_sound : ∀ (p cs : Chars), leadsWith p cs = true → cs = p ++ cs.drop p.length := by
  intro p
  induction p with
  | nil => intro cs _; simp
  | cons x xs ih =>
    intro cs h
    cases cs with
    | nil => simp [leadsWith] at h
    | cons c cs' =>
      simp only [leadsWith, Bool.and_eq_true, beq_iff_eq] at h
      obtain ⟨h1, h2⟩ := h
      subst h1
      simpa using congrArg (x :: ·) (ih cs' h2)

theorem leadsWith_self_append : ∀ (p t : Chars), leadsWith p (p ++ t) = true := by
  intro p t
  induction p with
  | nil => simp [leadsWith]
  | cons x xs ih => simp [leadsWith, ih]

theorem splitAtFence_sound : ∀ (cs a b : Chars), splitAtFence cs = some (a, b) →
    cs = a ++ fence ++ b := by
  intro cs
  induction cs with
  | nil => intro a b h; simp [splitAtFence] at h
  | cons c cs ih =>
    intro a b h
    by_cases hf : leadsWith fence (c :: cs) = true
    · simp only [splitAtFence, hf, if_true, Option.some.injEq, Prod.mk.injEq] at h
      obtain ⟨ha, hb⟩ := h
      subst ha; subst hb
      simpa using leadsWith_sound fence (c :: cs) hf
    · simp only [splitAtFence, hf, if_false, Bool.false_eq_true] at h
      cases hs : splitAtFence cs with
      | none => rw [hs] at h; simp at h
      | some p =>
        obtain ⟨a', b'⟩ := p
        rw [hs] at h
        simp only [Option.some.injEq, Prod.mk.injEq] at h
        obtain ⟨ha, hb⟩ := h
        subst ha; subst hb
        simpa using congrArg (c :: ·) (ih a' b' hs)

theorem dropWhile_head_false {p : Char → Bool} :
    ∀ (l : Chars) (x : Char) (xs : Chars), l.dropWhile p = x :: xs → p x = false := by
  intro l
  induction l with
  | nil => intro x xs h; simp [List.dropWhile] at h
  | cons c cs ih =>
    intro x xs h
    rw [List.dropWhile_cons] at h
    by_cases hc : p c = true
    · rw [if_pos hc] at h; exact ih x xs h
    · rw [if_neg hc] at h
      obtain ⟨h1, _⟩ := List.cons.injEq .. ▸ h
      have : c = x := by injection h
      subst this
      exact Bool.eq_false_iff.mpr hc

theorem tryMatchAt_sound (cs lang body rest : Chars)
    (h : tryMatchAt cs = some (lang, body, rest)) :
    cs = fence ++ lang ++ '\n' :: (body ++ fence ++ rest) := by
  unfold tryMatchAt at h
  by_cases hf : leadsWith fence cs = true
  · rw [if_pos hf] at h
    cases hd : (cs.drop 3).dropWhile (fun x => x != '\n') with
    | nil => rw [hd] at h; simp at h
    | cons r afterNl =>
      rw [hd] at h
      dsimp only at h
      cases hs : splitAtFence afterNl with
      | none => rw [hs] at h; simp at h
      | some p =>
        obtain ⟨b', a'⟩ := p
        rw [hs] at h
        simp only [Option.some.injEq, Prod.mk.injEq] at h
        obtain ⟨hl, hb, hr⟩ := h
        have hrnl : r = '\n' := by
          have := dropWhile_head_false (cs.drop 3) r afterNl hd
          simpa [bne] using this
        have hcs : cs = fence ++ cs.drop 3 := by
          simpa using leadsWith_sound fence cs hf
        have hsplit : cs.drop 3 = lang ++ r :: afterNl := by
          rw [← hl, ← hd]
          exact (List.takeWhile_append_dropWhile _ _).symm
        have hafter : afterNl = body ++ fence ++ rest := by
          rw [← hb, ← hr]
          exact splitAtFence_sound afterNl b' a' hs
        rw [hcs, hsplit, hrnl, hafter]
        simp
  · rw [if_neg hf] at h; simp at h

theorem findMatch_sound : ∀ (cs pre lang body rest : Chars),
    findMatch cs = some (pre, lang, body, rest) →
    cs = pre ++ fence ++ lang ++ '\n' :: (body ++ fence ++ rest) := by
  intro cs
  induction cs with
  | nil => intro pre lang body rest h; simp [findMatch] at h
  | cons c cs ih =>
    intro pre lang body rest h
    unfold findMatch at h
    cases ht : tryMatchAt (c :: cs) with
    | some t =>
      obtain ⟨l', b', r'⟩ := t
      rw [ht] at h
      simp only [Option.some.injEq, Prod.mk.injEq] at h
      obtain ⟨hp, hl, hb, hr⟩ := h
      rw [← hp, ← hl, ← hb, ← hr]
      simpa using tryMatchAt_sound (c :: cs) l' b' r' ht
    | none =>
      rw [ht] at h
      cases hm : findMatch cs with
      | none => rw [hm] at h; simp at h
      | some t =>
        obtain ⟨p', l', b', r'⟩ := t
        rw [hm] at h
        simp only [Option.some.injEq, Prod.mk.injEq] at h
        obtain ⟨hp, hl, hb, hr⟩ := h
        rw [← hp, ← hl, ← hb, ← hr]
        simpa using congrArg (c :: ·) (ih p' l' b' r' hm)

theorem findMatch_rest_lt (cs pre lang body rest : Chars)
    (h : findMatch cs = some (pre, lang, body, rest)) :
    rest.length + 7 ≤ cs.length := by
  have hd := findMatch_sound cs pre lang body rest h
  rw [hd]
  simp [fence]
  omega

theorem segmentsFromFuel_congr : ∀ (n : Nat) (cs : Chars) (f1 f2 : Nat),
    cs.length ≤ n → cs.length < f1 → cs.length < f2 →
    segmentsFromFuel f1 cs = segmentsFromFuel f2 cs := by
  intro n
  induction n with
  | zero =>
    intro cs f1 f2 hn h1 h2
    have hcs : cs = [] := List.length_eq_zero.mp (Nat.le_zero.mp hn)
    subst hcs
    obtain ⟨a, rfl⟩ : ∃ a, f1 = a + 1 := ⟨f1 - 1, by omega⟩
    obtain ⟨b, rfl⟩ : ∃ b, f2 = b + 1 := ⟨f2 - 1, by omega⟩
    simp [segmentsFromFuel, findMatch]
  | succ n ih =>
    intro cs f1 f2 hn h1 h2
    obtain ⟨a, rfl⟩ : ∃ a, f1 = a + 1 := ⟨f1 - 1, by omega⟩
    obtain ⟨b, rfl⟩ : ∃ b, f2 = b + 1 := ⟨f2 - 1, by omega⟩
    simp only [segmentsFromFuel]
    cases hm : findMatch cs with
    | none => rfl
    | some t =>
      obtain ⟨pre, lang, body, rest⟩ := t
      dsimp only
      have hlt := findMatch_rest_lt cs pre lang body rest hm
      rw [ih rest a b (by omega) (by omega) (by omega)]

theorem segmentsOf_none (cs : Chars) (h : findMatch cs = none) :
    segmentsOf cs = textSegOf cs := by
  unfold segmentsOf
  simp [segmentsFromFuel, h]

theorem segmentsOf_step (cs pre lang body rest : Chars)
    (h : findMatch cs = some (pre, lang, body, rest)) :
    segmentsOf cs = textSegOf pre ++ codeSegOf lang body ++ segmentsOf rest := by
  have hlt := findMatch_rest_lt cs pre lang body rest h
  unfold segmentsOf
  conv_lhs => rw [show cs.length + 1 = cs.length + 1 from rfl]
  rw [segmentsFromFuel, h]
  dsimp only
  congr 1
  exact segmentsFromFuel_congr cs.length rest cs.length (rest.length + 1)
    (by omega) (by omega) (by omega)

/-- Claim C4, counterexample.  The claim states that a crash at any point
mid-save leaves the previously committed history file intact, the rename
being the atomicity boundary.  `save_conversations` removes the existing
destination before renaming (src/AIChat.py:2044-2046), so a crash between
the remove and the rename leaves no history file at all: the previously
committed document is neither intact nor replaced. -/
theorem save_crash_between_remove_and_rename_cex :
    (crashAfter "new".toList ⟨some "old".toList, none⟩ 2).history ≠ some "old".toList ∧
    (crashAfter "new".toList ⟨some "old".toList, none⟩ 2).history ≠ some "new".toList ∧
    (crashAfter "new".toList ⟨some "old".toList, none⟩ 2).history = none := by
  decide

/-- Claim C4, amended: the save writes the document to the temporary path,
removes the existing destination, then renames the temporary over the
destination.  A crash before the remove (at most one step completed)
leaves the previously committed file intact; a crash after the rename
leaves the new document; but a crash between the remove and the rename
leaves no history file — the remove, not the rename alone, bounds
atomicity. -/
theorem save_crash_characterization (doc : Chars) (fs : FileSystem) (k : Nat) :
    (crashAfter doc fs k).history =
      if k ≤ 1 then fs.history else if k = 2 then none else some doc := by
  match k with
  | 0 => simp [crashAfter, saveSteps]
  | 1 => simp [crashAfter, saveSteps, applyStep]
  | 2 =>
    cases hfs : fs.history <;>
      simp [crashAfter, saveSteps, applyStep, hfs]
  | (n + 3) =>
    have ht : saveSteps.take (n + 3) = saveSteps := by
      simp [saveSteps, List.take_succ_cons]
    cases hfs : fs.history <;>
      simp [crashAfter, ht, saveSteps, applyStep, hfs]

/-- Claim C6: live-mode rendering (`update_content` while the stream is
still arriving, src/AIChat.py:882-931) never produces a code segment: for
every input the render is exactly one text browser holding the stripped
accumulated text with the inline formatting applied (fence markers shown
literally inside an inline-code-styled span), and no code-block widget. -/
theorem live_mode_never_code (cs : Chars) :
    liveRender cs = [RenderItem.html (processInlineCode false (pyStrip cs))] ∧
    hasCodeItem (liveRender cs) = false :=
  ⟨rfl, rfl⟩

/-- Claim C2, counterexample.  The claim states that invoking send while a
session is in flight force-cancels the existing session (worker stopped,
signals disconnected) before arming a new one.  In `send_message`
(src/AIChat.py:1790-1914) no cancellation happens: from the armed
`demoState` (worker 0 running and connected), sending leaves worker 0
running and connected and merely overwrites the worker reference with the
fresh worker 1. -/
theorem send_does_not_cancel_cex :
    demoState.apiWorker = some 0 ∧
    demoState.workerRunning 0 = true ∧
    (sendMessage ['h', 'i'] demoState).workerRunning 0 = true ∧
    (sendMessage ['h', 'i'] demoState).workerConnected 0 = true ∧
    (sendMessage ['h', 'i'] demoState).apiWorker = some 1 := by
  decide

/-- Claim C2, amended: invoking send while a session is in flight does not
cancel the existing session — the previous worker keeps its running and
connected flags unchanged and only the coordinator's worker reference is
replaced by the freshly armed worker.  (Cancellation happens only in
`_cancel_current_request`, reached from conversation switch, delete, new
and clear-history, never from `send_message`.) -/
theorem send_replaces_worker_without_cancel (s : AppState) (txt : Chars) (w : Nat)
    (_hw : s.apiWorker = some w) (hne : w ≠ s.nextWorker) (htxt : txt ≠ []) :
    (sendMessage txt s).workerRunning w = s.workerRunning w ∧
    (sendMessage txt s).workerConnected w = s.workerConnected w ∧
    (sendMessage txt s).apiWorker = some s.nextWorker := by
  simp [sendMessage, htxt, hne]

theorem send_replaces_worker_without_cancel_witness :
    demoState.apiWorker = some 0 ∧ (0 : Nat) ≠ demoState.nextWorker ∧
    (['h', 'i'] : Chars) ≠ [] ∧
    ((sendMessage ['h', 'i'] demoState).workerRunning 0 = demoState.workerRunning 0 ∧
     (sendMessage ['h', 'i'] demoState).workerConnected 0 = demoState.workerConnected 0 ∧
     (sendMessage ['h', 'i'] demoState).apiWorker = some demoState.nextWorker) :=
  ⟨rfl, by decide, by decide,
    send_replaces_worker_without_cancel demoState ['h', 'i'] 0 rfl (by decide) (by decide)⟩

/-- Claim C5, counterexample.  The claim's scenario states that the
unterminated input splits in final mode to exactly one code segment with
language `py` and content `print(1)` — but the repair appends a newline
before the synthetic closing marker, and the regex keeps the body raw, so
the produced content is `print(1)` followed by a newline, not `print(1)`. -/
theorem odd_fence_scenario_cex :
    finalizeSegments "```py\nprint(1)".toList
        = [Segment.code "py".toList "print(1)\n".toList] ∧
    finalizeSegments "```py\nprint(1)".toList
        ≠ [Segment.code "py".toList "print(1)".toList] := by
  decide

/-- Claim C5, amended: final-mode segmentation is a total function (no
exception); for every input with an odd fence-marker count the repair
appends one synthetic closing marker, making the marker count even; and
the scenario input (three backticks, `py`, newline, `print(1)`) segments
to exactly one code segment with language `py` and content `print(1)`
followed by the newline the repair inserted, with no trailing text
segment. -/
theorem odd_fence_repair_balances :
    (∀ cs : Chars, pyCount3 cs % 2 = 1 → pyCount3 (repairContent cs) % 2 = 0) ∧
    finalizeSegments "```py\nprint(1)".toList
        = [Segment.code "py".toList "print(1)\n".toList] := by
  constructor
  · intro cs h
    have hr := countFenceAux_append_repair cs 0
    unfold repairContent
    rw [if_pos h]
    unfold pyCount3 at h ⊢
    rw [hr]
    omega
  · decide

theorem odd_fence_repair_balances_witness :
    pyCount3 "```py\nprint(1)".toList % 2 = 1 ∧
    pyCount3 (repairContent "```py\nprint(1)".toList) % 2 = 0 :=
  ⟨by decide, odd_fence_repair_balances.1 _ (by decide)⟩

theorem markersOneLine_spec (cs : Chars) (h : markersOneLine cs = true)
    (p m q : Nat) (hp : p < cs.length) (hm : m < cs.length) (hq : q < cs.length)
    (h1 : fenceAt cs p = true) (h2 : nlAt cs m = true) (h3 : fenceAt cs q = true)
    (h4 : p < m) (h5 : m < q) : False := by
  unfold markersOneLine at h
  rw [List.all_eq_true] at h
  have hP := h p (List.mem_range.mpr hp)
  rw [List.all_eq_true] at hP
  have hM := hP m (List.mem_range.mpr hm)
  rw [List.all_eq_true] at hM
  have hQ := hM q (List.mem_range.mpr hq)
  simp [h1, h2, h3, h4, h5] at hQ

/-- A fence marker occurs at the length of the leading part of an
append decomposition. -/
theorem fenceAt_of_decomp (cs a b : Chars) (h : cs = a ++ (fence ++ b)) :
    fenceAt cs a.length = true := by
  subst h
  unfold fenceAt
  rw [List.drop_left]
  exact leadsWith_self_append fence b

/-- A newline occurs at the length of the leading part of an append
decomposition. -/
theorem nlAt_of_decomp (cs a b : Chars) (h : cs = a ++ ('\n' :: b)) :
    nlAt cs a.length = true := by
  subst h
  unfold nlAt
  rw [List.drop_left]
  simp [leadsWith]

/-- A match gives the three positions (opening marker, its newline, the
closing marker) that contradict `markersOneLine`. -/
theorem markersOneLine_no_match (cs : Chars) (h : markersOneLine cs = true) :
    findMatch cs = none := by
  cases hm : findMatch cs with
  | none => rfl
  | some t =>
    exfalso
    obtain ⟨pre, lang, body, rest⟩ := t
    have hd := findMatch_sound cs pre lang body rest hm
    have e1 : cs = pre ++ (fence ++ (lang ++ '\n' :: (body ++ fence ++ rest))) := by
      rw [hd]; simp [List.append_assoc]
    have e2 : cs = (pre ++ fence ++ lang) ++ ('\n' :: (body ++ fence ++ rest)) := by
      rw [hd]
    have e3 : cs = (pre ++ fence ++ lang ++ '\n' :: body) ++ (fence ++ rest) := by
      rw [hd]; simp [List.append_assoc]
    have h1 := fenceAt_of_decomp cs pre _ e1
    have h2 := nlAt_of_decomp cs (pre ++ fence ++ lang) _ e2
    have h3 := fenceAt_of_decomp cs (pre ++ fence ++ lang ++ '\n' :: body) _ e3
    have l1 : pre.length < (pre ++ fence ++ lang).length := by
      simp only [List.length_append, fence, List.length_cons, List.length_nil]
      omega
    have l2 : (pre ++ fence ++ lang).length
        < (pre ++ fence ++ lang ++ '\n' :: body).length := by
      simp only [List.length_append, fence, List.length_cons, List.length_nil]
      omega
    have l3 : (pre ++ fence ++ lang ++ '\n' :: body).length < cs.length := by
      rw [hd]
      simp only [List.length_append, fence, List.length_cons, List.length_nil]
      omega
    exact markersOneLine_spec cs h _ _ _ (by omega) (by omega) l3 h1 h2 h3 l1 l2

/-- Claim C10, counterexample.  The claim states that an input whose fence
markers all lie on one line segments to a single text segment containing
the whole input.  The segmenter strips the surrounding whitespace of a
text stretch, so for the one-line input with a leading and trailing space
the produced segment's content is the stripped text, not the whole
input. -/
theorem one_line_fences_cex :
    markersOneLine " ```abc``` ".toList = true ∧
    splitByRegex " ```abc``` ".toList ≠ [Segment.text " ```abc``` ".toList] ∧
    splitByRegex " ```abc``` ".toList = [Segment.text "```abc```".toList] := by
  refine ⟨by decide, by decide, by decide⟩

/-- Claim C10, amended: a fence-opening marker is recognized only when a
newline follows the language stretch before the closing marker, so for
every input whose fence markers all lie on one line (no newline strictly
between two marker positions) the regex never matches and segmentation
yields a single text segment and never a code segment; the segment's
content is the whitespace-stripped input (the whole input itself when
there is nothing to strip, or when the input is entirely whitespace, via
the fallback). -/
theorem one_line_fences_text_only (cs : Chars) (h : markersOneLine cs = true) :
    splitByRegex cs = [Segment.text (if pyStrip cs = [] then cs else pyStrip cs)] := by
  have hm := markersOneLine_no_match cs h
  have hseg := segmentsOf_none cs hm
  by_cases hs : pyStrip cs = []
  · simp [splitByRegex, hseg, textSegOf, hs]
  · simp [splitByRegex, hseg, textSegOf, hs]

theorem one_line_fences_text_only_witness :
    markersOneLine "```abc```".toList = true ∧
    splitByRegex "```abc```".toList
      = [Segment.text (if pyStrip "```abc```".toList = [] then "```abc```".toList
          else pyStrip "```abc```".toList)] :=
  ⟨by decide, one_line_fences_text_only _ (by decide)⟩

theorem cancel_requestConv (s : AppState) : (cancelCurrentRequest s).requestConv = none := rfl

theorem switch_requestConv (newId : Nat) (s : AppState) :
    (onConversationChanged newId s).requestConv = none := rfl

/-- Switching disconnects the armed worker's signals. -/
theorem switch_disconnects (newId w : Nat) (s : AppState)
    (hw : s.apiWorker = some w) (hr : s.workerRunning w = true) :
    (onConversationChanged newId s).workerConnected w = false := by
  simp [onConversationChanged, cancelCurrentRequest, hw, hr]

/-- Claim C1: session affinity after a conversation switch.  Switching
away (`on_conversation_changed`) cancels the session — clearing the bound
request id and disconnecting the running worker's signals — so every
stream event processed afterwards writes nothing to the conversation
store: the three handlers leave the whole store (old and new conversation
alike) unchanged, and an event emitted by the old worker is not even
delivered (its signals are disconnected), making it a no-op on the entire
state. -/
theorem session_affinity_post_switch (s : AppState) (newId w : Nat) (delta : Chars)
    (hw : s.apiWorker = some w) (hr : s.workerRunning w = true) :
    (onStreamChunk delta (onConversationChanged newId s)).conversations
        = (onConversationChanged newId s).conversations ∧
    (onStreamFinished (onConversationChanged newId s)).conversations
        = (onConversationChanged newId s).conversations ∧
    (onApiError (onConversationChanged newId s)).conversations
        = (onConversationChanged newId s).conversations ∧
    deliverChunk w delta (onConversationChanged newId s) = onConversationChanged newId s ∧
    deliverFinished w (onConversationChanged newId s) = onConversationChanged newId s ∧
    deliverError w (onConversationChanged newId s) = onConversationChanged newId s := by
  have hreq := switch_requestConv newId s
  have hconn := switch_disconnects newId w s hw hr
  refine ⟨?_, ?_, ?_, ?_, ?_, ?_⟩
  · simp [onStreamChunk, hreq]
  · simp [onStreamFinished, hreq]
  · simp [onApiError, hreq]
  · simp [deliverChunk, hconn]
  · simp [deliverFinished, hconn]
  · simp [deliverError, hconn]

theorem session_affinity_post_switch_witness :
    demoState.apiWorker = some 0 ∧ demoState.workerRunning 0 = true ∧
    ((onStreamChunk ['x'] (onConversationChanged 1 demoState)).conversations
        = (onConversationChanged 1 demoState).conversations ∧
     (onStreamFinished (onConversationChanged 1 demoState)).conversations
        = (onConversationChanged 1 demoState).conversations ∧
     (onApiError (onConversationChanged 1 demoState)).conversations
        = (onConversationChanged 1 demoState).conversations ∧
     deliverChunk 0 ['x'] (onConversationChanged 1 demoState)
        = onConversationChanged 1 demoState ∧
     deliverFinished 0 (onConversationChanged 1 demoState)
        = onConversationChanged 1 demoState ∧
     deliverError 0 (onConversationChanged 1 demoState)
        = onConversationChanged 1 demoState) :=
  ⟨rfl, rfl, session_affinity_post_switch demoState 1 0 ['x'] rfl rfl⟩

/-- Claim C3, counterexample.  The claim states that on completion with
odd-fence-count accumulated text, the assistant message appended to the
store is the repaired, fence-balanced text.  In `on_stream_finished` the
store receives `self.current_ai_content` — the raw streamed text — before
`finalize_content` mutates only the widget's copy, so from the concrete
mid-stream state the stored message is the raw text, which differs from
the repaired text. -/
theorem finished_stores_raw_cex :
    pyCount3 demoStreaming.aiContent % 2 = 1 ∧
    (onStreamFinished demoStreaming).conversations 0
        = [⟨userRoleS, "hi".toList⟩, ⟨assistantRoleS, "```py\nprint(1)".toList⟩] ∧
    (onStreamFinished demoStreaming).conversations 0
        ≠ [⟨userRoleS, "hi".toList⟩,
           ⟨assistantRoleS, repairContent "```py\nprint(1)".toList⟩] ∧
    repairContent "```py\nprint(1)".toList = "```py\nprint(1)\n```".toList := by
  refine ⟨by decide, by decide, by decide, by decide⟩

/-- Claim C3, amended: when the stream completes with non-empty
accumulated text and the bound conversation is still active, the message
appended to the conversation store carries the raw accumulated text, while
the transcript widget's displayed content is finalized to the repaired,
fence-balanced text — the repair never reaches the store. -/
theorem finished_appends_raw_repairs_widget (s : AppState) (wid : Nat)
    (hreq : s.requestConv = some s.currentConv) (hne : s.aiContent ≠ [])
    (hw : s.aiWidget = some wid) :
    (onStreamFinished s).conversations s.currentConv
        = s.conversations s.currentConv ++ [⟨assistantRoleS, s.aiContent⟩] ∧
    (onStreamFinished s).view = s.view.map (fun w =>
        if w.wid = wid then
          { w with content := if w.content = [] then w.content else repairContent w.content }
        else w) := by
  constructor
  · simp [onStreamFinished, hreq, hne, hw]
  · simp [onStreamFinished, hreq, hne, hw]

theorem finished_appends_raw_repairs_widget_witness :
    demoStreaming.requestConv = some demoStreaming.currentConv ∧
    demoStreaming.aiContent ≠ [] ∧ demoStreaming.aiWidget = some 1 ∧
    ((onStreamFinished demoStreaming).conversations demoStreaming.currentConv
        = demoStreaming.conversations demoStreaming.currentConv
            ++ [⟨assistantRoleS, demoStreaming.aiContent⟩] ∧
     (onStreamFinished demoStreaming).view = demoStreaming.view.map (fun w =>
        if w.wid = 1 then
          { w with content := if w.content = [] then w.content else repairContent w.content }
        else w)) :=
  ⟨rfl, by decide, rfl,
    finished_appends_raw_repairs_widget demoStreaming 1 rfl (by decide) rfl⟩

/-- The failure handler never writes the conversation store, in any
state. -/
theorem onApiError_conversations (s : AppState) :
    (onApiError s).conversations = s.conversations := by
  unfold onApiError
  by_cases h : s.requestConv = some s.currentConv
  · rw [if_pos h]
    cases s.aiWidget <;> by_cases h2 : s.aiContent = [] <;> simp [h2]
  · rw [if_neg h]

/-- Claim C8: failure atomicity.  When a send is followed by a failure
with no chunk in between, the failure writes nothing to the store (the
whole conversation map is unchanged), the store's message list for the
active conversation is exactly the pre-send list plus the user message,
and the transcript view ends as the pre-send view plus the user widget:
the empty assistant placeholder is removed and no persisted message is
touched.  The hypothesis bounds the pre-send view's widget ids by the
allocator, which every reachable state satisfies. -/
theorem failure_atomicity (s : AppState) (txt : Chars) (htxt : txt ≠ [])
    (hview : ∀ e ∈ s.view, e.wid < s.nextWidget) :
    (onApiError (sendMessage txt s)).conversations = (sendMessage txt s).conversations ∧
    (sendMessage txt s).conversations s.currentConv
        = s.conversations s.currentConv ++ [⟨userRoleS, txt⟩] ∧
    (onApiError (sendMessage txt s)).view = s.view ++ [⟨s.nextWidget, userRoleS, txt⟩] := by
  refine ⟨onApiError_conversations _, ?_, ?_⟩
  · simp [sendMessage, htxt]
  · have hfilter : s.view.filter (fun w => w.wid != s.nextWidget + 1) = s.view := by
      rw [List.filter_eq_self]
      intro e he
      have := hview e he
      simp only [bne_iff_ne, ne_eq]
      omega
    simp [onApiError, sendMessage, htxt, List.filter_append, hfilter]

/-- Absence of a character distributes over append. -/
theorem hasChar_append_false {c : Char} {a b : Chars}
    (ha : hasChar c a = false) (hb : hasChar c b = false) :
    hasChar c (a ++ b) = false := by
  induction a with
  | nil => simpa using hb
  | cons x a ih =>
    simp only [hasChar, Bool.or_eq_false_iff] at ha
    obtain ⟨hx, ha⟩ := ha
    simp [hasChar, hx, ih ha]

/-- Replacing `c` by a replacement free of `c` leaves no occurrence of
`c`. -/
theorem replaceChar_no_self (c : Char) (rep : Chars) (hrep : hasChar c rep = false) :
    ∀ xs : Chars, hasChar c (replaceChar c rep xs) = false := by
  intro xs
  induction xs with
  | nil => simp [replaceChar, hasChar]
  | cons x xs ih =>
    by_cases hx : (x == c) = true
    · simp only [replaceChar, hx, if_true]
      rw [hasChar_append_false hrep ih]
    · simp only [replaceChar, hx, if_false, Bool.false_eq_true]
      simp [hasChar, hx, ih]

/-- Replacing some other character introduces no occurrence of an absent
character. -/
theorem replaceChar_no_other (a c : Char) (rep : Chars) :
    ∀ xs : Chars, hasChar a xs = false → hasChar a rep = false →
      hasChar a (replaceChar c rep xs) = false := by
  intro xs
  induction xs with
  | nil => intro _ _; simp [replaceChar, hasChar]
  | cons x xs ih =>
    intro hxs hrep
    simp only [hasChar, Bool.or_eq_false_iff] at hxs
    obtain ⟨hx1, hx2⟩ := hxs
    by_cases hx : (x == c) = true
    · simp only [replaceChar, hx, if_true]
      rw [hasChar_append_false hrep (ih hx2 hrep)]
    · simp only [replaceChar, hx, if_false, Bool.false_eq_true]
      simp [hasChar, hx1, ih hx2 hrep]

/-- A replacement scan passes over a stretch free of the pattern. -/
theorem replaceChar_append_of_free (c : Char) (rep : Chars) :
    ∀ (p t : Chars), hasChar c p = false →
      replaceChar c rep (p ++ t) = p ++ replaceChar c rep t := by
  intro p
  induction p with
  | nil => intro t _; simp
  | cons x p ih =>
    intro t hp
    simp only [hasChar, Bool.or_eq_false_iff] at hp
    obtain ⟨hx, hp⟩ := hp
    simp only [List.cons_append, replaceChar, hx, if_false, Bool.false_eq_true]
    exact congrArg (x :: ·) (ih t hp)

/-- An entity tail survives the replacement of a character that appears in
no entity tail. -/
theorem entityTail_replaceChar (xs : Chars) (c : Char) (rep : Chars)
    (hca : hasChar c ['a', 'm', 'p', ';'] = false)
    (hcl : hasChar c ['l', 't', ';'] = false)
    (hcg : hasChar c ['g', 't', ';'] = false)
    (h : entityTail xs = true) : entityTail (replaceChar c rep xs) = true := by
  unfold entityTail at h ⊢
  simp only [Bool.or_eq_true] at h ⊢
  rcases h with (ha | hl) | hg
  · left; left
    rw [leadsWith_sound _ _ ha, replaceChar_append_of_free c rep _ _ hca]
    exact leadsWith_self_append _ _
  · left; right
    rw [leadsWith_sound _ _ hl, replaceChar_append_of_free c rep _ _ hcl]
    exact leadsWith_self_append _ _
  · right
    rw [leadsWith_sound _ _ hg, replaceChar_append_of_free c rep _ _ hcg]
    exact leadsWith_self_append _ _

/-- After the ampersand replacement every ampersand starts an entity. -/
theorem ampOk_escape_amp : ∀ xs : Chars, ampOk (replaceChar '&' entAmp xs) = true := by
  intro xs
  induction xs with
  | nil => simp [replaceChar, ampOk]
  | cons x xs ih =>
    by_cases hx : (x == '&') = true
    · simp only [replaceChar, hx, if_true]
      have : entAmp ++ replaceChar '&' entAmp xs
          = '&' :: 'a' :: 'm' :: 'p' :: ';' :: replaceChar '&' entAmp xs := rfl
      rw [this]
      simp [ampOk, entityTail, leadsWith]
      exact ih
    · simp only [replaceChar, hx, if_false, Bool.false_eq_true]
      simp [ampOk, hx, ih]

/-- The less-than replacement preserves well-escaped ampersands. -/
theorem ampOk_escape_lt : ∀ xs : Chars, ampOk xs = true →
    ampOk (replaceChar '<' entLt xs) = true := by
  intro xs
  induction xs with
  | nil => intro _; simp [replaceChar, ampOk]
  | cons x xs ih =>
    intro h
    simp only [ampOk, Bool.and_eq_true] at h
    obtain ⟨h1, h2⟩ := h
    by_cases hx : (x == '<') = true
    · simp only [replaceChar, hx, if_true]
      have : entLt ++ replaceChar '<' entLt xs
          = '&' :: 'l' :: 't' :: ';' :: replaceChar '<' entLt xs := rfl
      rw [this]
      simp [ampOk, entityTail, leadsWith]
      exact ih h2
    · simp only [replaceChar, hx, if_false, Bool.false_eq_true]
      by_cases ha : (x == '&') = true
      · rw [if_pos ha] at h1
        simp only [ampOk, ha, if_true, Bool.and_eq_true]
        exact ⟨entityTail_replaceChar xs '<' entLt (by decide) (by decide) (by decide) h1,
          ih h2⟩
      · simp only [ampOk, ha, if_false, Bool.false_eq_true, Bool.true_and]
        exact ih h2

/-- The greater-than replacement preserves well-escaped ampersands. -/
theorem ampOk_escape_gt : ∀ xs : Chars, ampOk xs = true →
    ampOk (replaceChar '>' entGt xs) = true := by
  intro xs
  induction xs with
  | nil => intro _; simp [replaceChar, ampOk]
  | cons x xs ih =>
    intro h
    simp only [ampOk, Bool.and_eq_true] at h
    obtain ⟨h1, h2⟩ := h
    by_cases hx : (x == '>') = true
    · simp only [replaceChar, hx, if_true]
      have : entGt ++ replaceChar '>' entGt xs
          = '&' :: 'g' :: 't' :: ';' :: replaceChar '>' entGt xs := rfl
      rw [this]
      simp [ampOk, entityTail, leadsWith]
      exact ih h2
    · simp only [replaceChar, hx, if_false, Bool.false_eq_true]
      by_cases ha : (x == '&') = true
      · rw [if_pos ha] at h1
        simp only [ampOk, ha, if_true, Bool.and_eq_true]
        exact ⟨entityTail_replaceChar xs '>' entGt (by decide) (by decide) (by decide) h1,
          ih h2⟩
      · simp only [ampOk, ha, if_false, Bool.false_eq_true, Bool.true_and]
        exact ih h2

/-- Claim C9: in `process_inline_code`, escaping of the markup-significant
characters is performed before any inline-formatting substitution — the
pipeline factors through `escapeHtml` — and the escaped text contains no
raw less-than or greater-than character, while every remaining ampersand
begins one of the generated entities; so no such character originating in
the content reaches the formatting substitutions unescaped. -/
theorem escape_before_formatting (user : Bool) (t : Chars) :
    processInlineCode user t = inlineFormatting user (escapeHtml t) ∧
    hasChar '<' (escapeHtml t) = false ∧
    hasChar '>' (escapeHtml t) = false ∧
    ampOk (escapeHtml t) = true := by
  refine ⟨rfl, ?_, ?_, ?_⟩
  · unfold escapeHtml
    exact replaceChar_no_other '<' '>' entGt _
      (replaceChar_no_self '<' entLt (by decide) _) (by decide)
  · unfold escapeHtml
    exact replaceChar_no_self '>' entGt (by decide) _
  · unfold escapeHtml
    exact ampOk_escape_gt _ (ampOk_escape_lt _ (ampOk_escape_amp _))

theorem leadsWith_fence_cons_false (x : Char) (t : Chars) (hx : (x == bt) = false) :
    leadsWith fence (x :: t) = false := by
  have hbx : (bt == x) = false := by
    rw [beq_eq_false_iff_ne] at hx ⊢
    exact fun h => hx h.symm
  simp [leadsWith, fence, hbx]

theorem tryMatchAt_cons_none (x : Char) (t : Chars) (hx : (x == bt) = false) :
    tryMatchAt (x :: t) = none := by
  unfold tryMatchAt
  rw [leadsWith_fence_cons_false x t hx]
  simp

/-- A backtick-free input never matches the code-block pattern. -/
theorem noBt_no_match : ∀ t : Chars, hasChar bt t = false → findMatch t = none := by
  intro t
  induction t with
  | nil => intro _; rfl
  | cons x t ih =>
    intro h
    simp only [hasChar, Bool.or_eq_false_iff] at h
    obtain ⟨hx, ht⟩ := h
    unfold findMatch
    rw [tryMatchAt_cons_none x t hx, ih ht]

/-- The lazy body group finds the closing marker at the end of a
backtick-free body. -/
theorem splitAtFence_canonical : ∀ (a b : Chars), hasChar bt a = false →
    splitAtFence (a ++ (fence ++ b)) = some (a, b) := by
  intro a
  induction a with
  | nil =>
    intro b _
    have hc : leadsWith fence (bt :: ([bt, bt] ++ b)) = true := leadsWith_self_append fence b
    show splitAtFence (bt :: ([bt, bt] ++ b)) = some ([], b)
    rw [splitAtFence, if_pos hc]
    simp
  | cons x a ih =>
    intro b h
    simp only [hasChar, Bool.or_eq_false_iff] at h
    obtain ⟨hx, ha⟩ := h
    show splitAtFence (x :: (a ++ (fence ++ b))) = some (x :: a, b)
    rw [splitAtFence, leadsWith_fence_cons_false x _ hx]
    simp [ih b ha]

/-- The greedy language group on a newline-free tag stops exactly at the
newline. -/
theorem langLine_canonical : ∀ (lang z : Chars), hasChar '\n' lang = false →
    (lang ++ '\n' :: z).takeWhile (fun x => x != '\n') = lang ∧
    (lang ++ '\n' :: z).dropWhile (fun x => x != '\n') = '\n' :: z := by
  intro lang
  induction lang with
  | nil => intro z _; constructor <;> simp [List.takeWhile, List.dropWhile]
  | cons c cs ih =>
    intro z h
    simp only [hasChar, Bool.or_eq_false_iff] at h
    obtain ⟨hc, hcs⟩ := h
    have hcb : (c != '\n') = true := by simp [bne]; simpa using hc
    obtain ⟨ht, hd⟩ := ih z hcs
    constructor
    · simp only [List.cons_append, List.takeWhile_cons, hcb, if_true, ht]
    · simp only [List.cons_append, List.dropWhile_cons, hcb, if_true, hd]

/-- The regex attempt at a well-formed block start matches exactly the
block. -/
theorem tryMatchAt_canonical (lang body rest : Chars)
    (hl : hasChar '\n' lang = false) (hb : hasChar bt body = false) :
    tryMatchAt (fence ++ (lang ++ ('\n' :: (body ++ (fence ++ rest)))))
      = some (lang, body, rest) := by
  unfold tryMatchAt
  have hf : leadsWith fence (fence ++ (lang ++ ('\n' :: (body ++ (fence ++ rest))))) = true :=
    leadsWith_self_append _ _
  rw [if_pos hf]
  have hdrop : (fence ++ (lang ++ ('\n' :: (body ++ (fence ++ rest))))).drop 3
      = lang ++ '\n' :: (body ++ (fence ++ rest)) := rfl
  rw [hdrop]
  obtain ⟨ht, hd⟩ := langLine_canonical lang (body ++ (fence ++ rest)) hl
  rw [hd]
  dsimp only
  rw [splitAtFence_canonical body rest hb]
  simp [ht]

/-- The scan finds the well-formed block as the leftmost match after a
backtick-free stretch. -/
theorem findMatch_canonical : ∀ (pre : Chars), hasChar bt pre = false →
    ∀ (lang body rest : Chars), hasChar '\n' lang = false → hasChar bt body = false →
    findMatch (pre ++ (fence ++ (lang ++ ('\n' :: (body ++ (fence ++ rest))))))
      = some (pre, lang, body, rest) := by
  intro pre
  induction pre with
  | nil =>
    intro _ lang body rest hl hb
    show findMatch (bt :: ([bt, bt] ++ (lang ++ ('\n' :: (body ++ (fence ++ rest))))))
        = some ([], lang, body, rest)
    rw [findMatch]
    have := tryMatchAt_canonical lang body rest hl hb
    rw [show (bt :: ([bt, bt] ++ (lang ++ ('\n' :: (body ++ (fence ++ rest))))))
        = fence ++ (lang ++ ('\n' :: (body ++ (fence ++ rest)))) from rfl, this]
  | cons x pre ih =>
    intro h lang body rest hl hb
    simp only [hasChar, Bool.or_eq_false_iff] at h
    obtain ⟨hx, hpre⟩ := h
    show findMatch (x :: (pre ++ (fence ++ (lang ++ ('\n' :: (body ++ (fence ++ rest)))))))
        = some (x :: pre, lang, body, rest)
    rw [findMatch, tryMatchAt_cons_none x _ hx, ih hpre lang body rest hl hb]

/-- The marker scanner passes over a backtick-free stretch, resetting any
partial marker unless the stretch is empty. -/
theorem countFenceAux_free : ∀ (xs : Chars), hasChar bt xs = false →
    ∀ (p : Nat) (z : Chars),
      countFenceAux p (xs ++ z) = countFenceAux (if xs = [] then p else 0) z := by
  intro xs
  induction xs with
  | nil => intro _ p z; simp
  | cons x xs ih =>
    intro h p z
    simp only [hasChar, Bool.or_eq_false_iff] at h
    obtain ⟨hx, hxs⟩ := h
    simp only [List.cons_append, countFenceAux, hx, Bool.false_eq_true, if_false]
    show countFenceAux 0 (xs ++ z) = countFenceAux (if x :: xs = [] then p else 0) z
    rw [ih hxs 0 z]
    simp

/-- A backtick-free string holds no marker. -/
theorem countFenceAux_of_free (t : Chars) (h : hasChar bt t = false) (p : Nat) :
    countFenceAux p t = 0 := by
  have := countFenceAux_free t h p []
  simp only [List.append_nil] at this
  rw [this]
  cases t <;> rfl

/-- One marker at the head advances the count by one. -/
theorem countFenceAux_fence (z : Chars) :
    countFenceAux 0 (fence ++ z) = countFenceAux 0 z + 1 := by
  show countFenceAux 0 (bt :: bt :: bt :: z) = countFenceAux 0 z + 1
  simp [countFenceAux, backtick_beq_self]

/-- A well-formed document has a balanced (even) marker count: two markers
per block. -/
theorem render_count_even : ∀ (d : FencedDoc), d.wf = true →
    pyCount3 d.render % 2 = 0 := by
  intro d
  induction d with
  | done t =>
    intro h
    simp only [FencedDoc.wf, Bool.not_eq_true'] at h
    unfold pyCount3 FencedDoc.render
    rw [countFenceAux_of_free t h 0]
  | block pre lang body rest ih =>
    intro h
    simp only [FencedDoc.wf, Bool.and_eq_true, Bool.not_eq_true'] at h
    obtain ⟨⟨⟨⟨⟨⟨⟨h1, h2⟩, h3⟩, h4⟩, h5⟩, h6⟩, h7⟩, h8⟩ := h
    have hrend : FencedDoc.render (FencedDoc.block pre lang body rest)
        = pre ++ (fence ++ (lang ++ ('\n' :: (body ++ (fence ++ rest.render))))) := by
      simp [FencedDoc.render]
    unfold pyCount3
    rw [hrend, countFenceAux_free pre h1 0]
    have hp0 : (if pre = [] then 0 else 0) = 0 := by simp
    rw [hp0, countFenceAux_fence, countFenceAux_free lang h2 0]
    have hl0 : (if lang = [] then 0 else 0) = 0 := by simp
    rw [hl0]
    have hnl : countFenceAux 0 ('\n' :: (body ++ (fence ++ rest.render)))
        = countFenceAux 0 (body ++ (fence ++ rest.render)) := by
      simp [countFenceAux, nl_beq_bt]
    rw [hnl, countFenceAux_free body h6 0]
    have hb0 : (if body = [] then 0 else 0) = 0 := by simp
    rw [hb0, countFenceAux_fence]
    have := ih h8
    unfold pyCount3 at this
    omega

theorem filterNonWs_dropWhile (t : Chars) :
    filterNonWs (t.dropWhile isWs) = filterNonWs t := by
  induction t with
  | nil => rfl
  | cons c t ih =>
    by_cases hc : isWs c = true
    · rw [List.dropWhile_cons, if_pos hc, ih]
      simp [filterNonWs, hc]
    · rw [List.dropWhile_cons, if_neg hc]

theorem filterNonWs_reverse (t : Chars) :
    filterNonWs t.reverse = (filterNonWs t).reverse := by
  simp [filterNonWs, List.filter_reverse]

/-- Stripping removes only whitespace. -/
theorem filterNonWs_strip (t : Chars) : filterNonWs (pyStrip t) = filterNonWs t := by
  unfold pyStrip
  rw [filterNonWs_reverse, filterNonWs_dropWhile, filterNonWs_reverse,
    List.reverse_reverse, filterNonWs_dropWhile]

theorem filterNonWs_of_strip_nil (t : Chars) (h : pyStrip t = []) : filterNonWs t = [] := by
  rw [← filterNonWs_strip, h]
  rfl

/-- The text segment of a stretch carries the stretch's non-whitespace
content. -/
theorem filterNonWs_textSegOf (p : Chars) :
    filterNonWs (rewrap (textSegOf p)) = filterNonWs p := by
  unfold textSegOf
  by_cases h : pyStrip p = []
  · rw [if_pos h, filterNonWs_of_strip_nil p h]
    rfl
  · rw [if_neg h]
    simp [rewrap, rewrapSegment, filterNonWs_strip]

/-- Round-trip over the match loop's segments, for well-formed
documents. -/
theorem roundtrip_segmentsOf : ∀ (d : FencedDoc), d.wf = true →
    filterNonWs (rewrap (segmentsOf d.render)) = filterNonWs d.render := by
  intro d
  induction d with
  | done t =>
    intro h
    simp only [FencedDoc.wf, Bool.not_eq_true'] at h
    have hm := noBt_no_match t h
    show filterNonWs (rewrap (segmentsOf t)) = filterNonWs t
    rw [segmentsOf_none t hm, filterNonWs_textSegOf]
  | block pre lang body rest ih =>
    intro h
    simp only [FencedDoc.wf, Bool.and_eq_true, Bool.not_eq_true'] at h
    obtain ⟨⟨⟨⟨⟨⟨⟨h1, h2⟩, h3⟩, h4⟩, h5⟩, h6⟩, h7⟩, h8⟩ := h
    have h4' : pyStrip lang = lang := by simpa using h4
    have h5' : lang ≠ [] := by simpa [List.isEmpty_iff] using h5
    have h7' : pyStrip body ≠ [] := by simpa [List.isEmpty_iff] using h7
    have hrend : FencedDoc.render (FencedDoc.block pre lang body rest)
        = pre ++ (fence ++ (lang ++ ('\n' :: (body ++ (fence ++ rest.render))))) := by
      simp [FencedDoc.render]
    have hfm := findMatch_canonical pre h1 lang body rest.render h3 h6
    rw [hrend, segmentsOf_step _ pre lang body rest.render hfm]
    have hlne : pyStrip lang ≠ [] := by rw [h4']; exact h5'
    have hcode : codeSegOf lang body = [Segment.code lang body] := by
      unfold codeSegOf langOrDefault
      rw [if_neg h7', if_neg hlne, h4']
    rw [hcode]
    simp only [rewrap, List.map_append, List.flatten_append]
    simp only [filterNonWs, List.filter_append]
    have hx1 : (rewrap (textSegOf pre)).filter (fun c => !isWs c) = pre.filter (fun c => !isWs c) :=
      filterNonWs_textSegOf pre
    have hx2 : (rewrap (segmentsOf rest.render)).filter (fun c => !isWs c)
        = rest.render.filter (fun c => !isWs c) := ih h8
    simp only [rewrap, filterNonWs] at hx1 hx2
    rw [hx1, hx2]
    simp [rewrapSegment, List.filter_append, List.filter_cons, List.append_assoc,
      show isWs '\n' = true from by decide]

/-- Claim C7, counterexample.  The claim states that for balanced inputs,
re-wrapping the final-mode segments reconstructs the input up to
whitespace at segment boundaries.  For the balanced input consisting of a
fenced block with an empty language tag, the segmenter substitutes the
default language name `code`, so the re-wrapped text differs from the
input by the inserted word `code` — a non-whitespace difference. -/
theorem roundtrip_cex :
    pyCount3 "```\nx\n```".toList % 2 = 0 ∧
    rewrap (splitByRegex "```\nx\n```".toList) = "```code\nx\n```".toList ∧
    filterNonWs (rewrap (splitByRegex "```\nx\n```".toList))
      ≠ filterNonWs "```\nx\n```".toList := by
  refine ⟨by decide, by decide, by decide⟩

/-- Claim C7, amended: the round-trip holds for balanced inputs of the
restricted well-formed shape — backtick-free text runs alternating with
fenced blocks whose language tags are non-empty, already stripped,
newline- and backtick-free, and whose bodies are backtick-free and
non-blank.  Every such document has an even fence-marker count, and
concatenating the final-mode segments' raw forms (code segments re-wrapped
in fence markers with their language tags) reconstructs the input up to
whitespace differences at segment boundaries (equal non-whitespace
projections).  Outside this shape the round-trip fails: empty language
tags are renamed `code`, blank-bodied blocks are dropped with their
markers, and a backtick-bearing language line can swallow following
blocks. -/
theorem roundtrip_wellformed (d : FencedDoc) (h : d.wf = true) :
    pyCount3 d.render % 2 = 0 ∧
    filterNonWs (rewrap (splitByRegex d.render)) = filterNonWs d.render := by
  refine ⟨render_count_even d h, ?_⟩
  unfold splitByRegex
  by_cases hs : segmentsOf d.render = []
  · rw [if_pos hs]
    simp [rewrap, rewrapSegment]
  · rw [if_neg hs]
    exact roundtrip_segmentsOf d h

theorem roundtrip_wellformed_witness :
    demoDoc.wf = true ∧
    (pyCount3 demoDoc.render % 2 = 0 ∧
     filterNonWs (rewrap (splitByRegex demoDoc.render)) = filterNonWs demoDoc.render) :=
  ⟨by decide, roundtrip_wellformed demoDoc (by decide)⟩

theorem failure_atomicity_witness :
    (['h', 'i'] : Chars) ≠ [] ∧ (∀ e ∈ demoState.view, e.wid < demoState.nextWidget) ∧
    ((onApiError (sendMessage ['h', 'i'] demoState)).conversations
        = (sendMessage ['h', 'i'] demoState).conversations ∧
     (sendMessage ['h', 'i'] demoState).conversations demoState.currentConv
        = demoState.conversations demoState.currentConv ++ [⟨userRoleS, ['h', 'i']⟩] ∧
     (onApiError (sendMessage ['h', 'i'] demoState)).view
        = demoState.view ++ [⟨demoState.nextWidget, userRoleS, ['h', 'i']⟩]) :=
  ⟨by decide, by decide, failure_atomicity demoState ['h', 'i'] (by decide) (by decide)⟩

end AIChat
